import Mathlib

/-
Verification of the mime-detector library (src/magicBytes.ts, src/mimeTypes.ts).

Shallow embedding of the TypeScript MIME-type detector:

* `magicBytes` — the built-in signature table (`magicBytes.ts`);
* `mimeTypes` — the extension-to-MIME table (`mimeTypes.ts`), kept as an
  association list in the declaration order of the object literal (all keys
  are non-numeric strings, so JavaScript `Object.entries` enumeration order
  is insertion order);
* `checkMagicBytes` — the signature matcher;
* `getMimeType` — the resolver; the external byte acquisition (filesystem /
  HTTP) is abstracted as an `Acquisition` outcome (a buffer, or a failure
  that the `try/catch` in the source recovers from);
* `extname` — Node's `path.posix.extname`, the external collaborator used
  for extension derivation, modelled from its documented semantics;
* category predicates and `getMimeExtension`.

Buffers are lists of byte values.  JavaScript quirks that the source relies
on are modelled explicitly: `signature.offset || 0`, mask defaulting,
`x || 'application/octet-stream'` treating the empty string as falsy, and
`Buffer.alloc(12)` + `fs.readSync` producing a zero-padded 12-byte buffer.
-/

/-- The `MagicByte` interface from `magicBytes.ts`: a byte pattern with an
optional per-byte mask and an optional starting offset. -/
structure MagicByte where
  bytes : List Nat
  mask : Option (List Nat) := none
  offset : Option Nat := none
deriving Repr, DecidableEq

/-- The `MagicByteDefinition` interface: a MIME type with its alternative
signatures. -/
structure MagicByteDefinition where
  mimeType : String
  signatures : List MagicByte
deriving Repr, DecidableEq

/-- The built-in signature table `magicBytes` from `magicBytes.ts`,
in declaration order. -/
def magicBytes : List MagicByteDefinition := [
  -- PDF
  { mimeType := "application/pdf",
    signatures := [{ bytes := [0x25, 0x50, 0x44, 0x46] }] },
  -- JPEG
  { mimeType := "image/jpeg",
    signatures := [{ bytes := [0xff, 0xd8, 0xff, 0xe0] },
                   { bytes := [0xff, 0xd8, 0xff, 0xe1] },
                   { bytes := [0xff, 0xd8, 0xff, 0xe8] }] },
  -- PNG
  { mimeType := "image/png",
    signatures := [{ bytes := [0x89, 0x50, 0x4e, 0x47, 0x0d, 0x0a, 0x1a, 0x0a] }] },
  -- GIF
  { mimeType := "image/gif",
    signatures := [{ bytes := [0x47, 0x49, 0x46, 0x38, 0x37, 0x61] },
                   { bytes := [0x47, 0x49, 0x46, 0x38, 0x39, 0x61] }] },
  -- MP3
  { mimeType := "audio/mpeg",
    signatures := [{ bytes := [0x49, 0x44, 0x33] },
                   { bytes := [0xff, 0xfb] }] },
  -- MP4
  { mimeType := "video/mp4",
    signatures := [{ bytes := [0x66, 0x74, 0x79, 0x70], offset := some 4 },
                   { bytes := [0x6d, 0x70, 0x34, 0x32], offset := some 8 }] },
  -- WebM
  { mimeType := "video/webm",
    signatures := [{ bytes := [0x1a, 0x45, 0xdf, 0xa3] }] }]

/-- The expression `signature.offset || 0`: the offset with `undefined` (and `0`, which is
falsy in JavaScript) collapsing to `0`. -/
def sigOffset (s : MagicByte) : Nat := s.offset.getD 0

/-- The expression `signature.mask ? signature.mask[i] : 0xff`: the mask byte used at
position `i`.  When a mask list is present but shorter than `i`,
`signature.mask[i]` is `undefined` and `byte & undefined` evaluates to `0`
in JavaScript, which is what `getD i 0` yields. -/
def sigMask (s : MagicByte) (i : Nat) : Nat :=
  match s.mask with
  | some m => m.getD i 0
  | none => 0xff

/-- Read `buffer[j]` for an in-range index; `oob j` stands for whatever an
out-of-range access would yield.  Used to show the matcher never performs
an out-of-range access: its result is independent of `oob`. -/
def readByte (buffer : List Nat) (oob : Nat → Nat) (j : Nat) : Nat :=
  if h : j < buffer.length then buffer.get ⟨j, h⟩ else oob j

/-- The per-signature test of `checkMagicBytes`, with out-of-range reads
returning `oob`: skip when `buffer.length < offset + signature.bytes.length`,
otherwise require `(buffer[offset+i] & mask) == (signatureByte & mask)` at
every position. -/
def signatureMatchesR (buffer : List Nat) (oob : Nat → Nat) (s : MagicByte) : Bool :=
  let offset := sigOffset s
  if buffer.length < offset + s.bytes.length then false
  else (List.range s.bytes.length).all fun i =>
    let byte := readByte buffer oob (offset + i)
    let signatureByte := s.bytes.getD i 0
    let mask := sigMask s i
    (byte &&& mask) == (signatureByte &&& mask)

/-- The per-signature test of `checkMagicBytes` (out-of-range reads, which
never happen, modelled as `0`). -/
def signatureMatches (buffer : List Nat) (s : MagicByte) : Bool :=
  signatureMatchesR buffer (fun _ => 0) s

/-- The matcher `checkMagicBytes`, generalized over the out-of-range read model. -/
def checkMagicBytesR (buffer : List Nat) (oob : Nat → Nat) : Option String :=
  magicBytes.findSome? fun type =>
    if type.signatures.any (signatureMatchesR buffer oob) then some type.mimeType
    else none

/-- Function `checkMagicBytes` from `magicBytes.ts`: scan groups in declaration
order, inside a group scan signatures in declaration order, return the
group's MIME type at the first signature that matches, `null` when none
does. -/
def checkMagicBytes (buffer : List Nat) : Option String :=
  magicBytes.findSome? fun type =>
    if type.signatures.any (signatureMatches buffer) then some type.mimeType
    else none

/-- All (mimeType, signature) pairs of the table, flattened in
group-then-signature declaration order. -/
def allSignatures : List (String × MagicByte) :=
  magicBytes.flatMap fun type => type.signatures.map fun s => (type.mimeType, s)

/-- The extension-to-MIME table `mimeTypes` from `mimeTypes.ts`, as an
association list in the declaration order of the object literal.  All keys
are non-numeric strings, so `Object.entries` enumerates them in insertion
order; property lookup `mimeTypes[extension]` is modelled as lookup among
the literal's own keys. -/
def mimeTypes : List (String × String) := [
  -- Documents
  ("pdf", "application/pdf"),
  ("doc", "application/msword"),
  ("docx", "application/vnd.openxmlformats-officedocument.wordprocessingml.document"),
  ("txt", "text/plain"),
  ("rtf", "application/rtf"),
  -- Images
  ("jpg", "image/jpeg"),
  ("jpeg", "image/jpeg"),
  ("png", "image/png"),
  ("gif", "image/gif"),
  ("webp", "image/webp"),
  ("svg", "image/svg+xml"),
  -- Audio
  ("mp3", "audio/mpeg"),
  ("wav", "audio/wav"),
  ("ogg", "audio/ogg"),
  ("m4a", "audio/mp4"),
  -- Video
  ("mp4", "video/mp4"),
  ("webm", "video/webm"),
  ("avi", "video/x-msvideo"),
  ("mov", "video/quicktime"),
  ("mkv", "video/x-matroska")]

/-- Lookup `mimeTypes[extension]`: the value of the first (unique) entry whose key
is `extension`, or `none` when the key is absent. -/
def lookupMime (extension : String) : Option String :=
  (mimeTypes.find? fun e => e.1 == extension).map fun e => e.2

/-- JavaScript `x || d` for `x` a string property lookup: `undefined` and
the empty string are falsy and yield the default. -/
def jsOr (x : Option String) (d : String) : String :=
  match x with
  | some s => if s = "" then d else s
  | none => d

/-- ASCII lowercasing of one character, as `String.prototype.toLowerCase`
acts on the ASCII range (all strings involved here are ASCII). -/
def toLowerChar (c : Char) : Char :=
  if 'A' ≤ c ∧ c ≤ 'Z' then Char.ofNat (c.toNat + 32) else c

/-- JavaScript `s.toLowerCase()` on ASCII strings. -/
def toLowerStr (s : String) : String := String.mk (s.data.map toLowerChar)

/-- JavaScript `s.slice(1)`: drop the first character (JavaScript slices by code unit;
all strings involved here are ASCII). -/
def jsSlice1 (s : String) : String := String.mk (s.data.drop 1)

/-- Index of the last occurrence of `c` in `cs`, if any. -/
def lastIndexOf (cs : List Char) (c : Char) : Option Nat :=
  (cs.length - 1 - ·) <$> cs.reverse.indexOf? c

/-- A JavaScript path with its trailing `/` separators removed, the first
step of Node's "last portion of the path". -/
def dropTrailingSlashes (cs : List Char) : List Char :=
  (cs.reverse.dropWhile (· == '/')).reverse

/-- The basename of the descriptor: the last `/`-separated portion of the
path, ignoring trailing separators (Node `path.posix.basename` on a
separator-trimmed path). -/
def jsBasename (s : String) : List Char :=
  let cs := dropTrailingSlashes s.data
  match lastIndexOf cs '/' with
  | some i => cs.drop (i + 1)
  | none => cs

/-- Node `path.posix.extname`, the external collaborator used by
`getMimeType`, modelled from its documented semantics: the substring from
the last `.` of the last portion of the path to the end of that portion;
the empty string when that portion has no `.`, when its only `.` is its
first character, or when the portion is exactly `".."`. -/
def extname (s : String) : String :=
  if jsBasename s = ['.', '.'] then ""
  else
    match lastIndexOf (jsBasename s) '.' with
    | none => ""
    | some 0 => ""
    | some j => String.mk ((jsBasename s).drop j)

/-- The expression `path.extname(filePathOrUrl).toLowerCase().slice(1)`: the extension
string used for the fallback lookup inside `getMimeType`. -/
def derivedExtension (filePathOrUrl : String) : String :=
  jsSlice1 (toLowerStr (extname filePathOrUrl))

/-- Outcome of the external byte acquisition performed inside the `try`
block of `getMimeType` (HTTP fetch for `http://`/`https://` descriptors,
filesystem read otherwise): either a buffer, or a failure that transfers
control to the `catch` block. -/
inductive Acquisition where
  | success (buffer : List Nat)
  | failure
deriving Repr, DecidableEq

/-- JavaScript `Buffer.alloc(n)`: a fresh zero-filled buffer. -/
def bufferAlloc (n : Nat) : List Nat := List.replicate n 0

/-- Node `fs.readSync(fd, buffer, 0, len, 0)`: copy up to `len` bytes from the
start of the file into the start of `buffer`, leaving the rest of `buffer`
untouched; a file shorter than `len` gives a short read, not an error. -/
def readSyncInto (buffer : List Nat) (file : List Nat) (len : Nat) : List Nat :=
  file.take len ++ buffer.drop (file.take len).length

/-- The buffer produced by the local-path branch of `getMimeType` for a
file with contents `file`: `Buffer.alloc(12)` then
`fs.readSync(fd, buffer, 0, 12, 0)`. -/
def localReadBuffer (file : List Nat) : List Nat :=
  readSyncInto (bufferAlloc 12) file 12

/-- Function `getMimeType` from `magicBytes.ts`, with the byte acquisition
abstracted into an `Acquisition` outcome.  On success, magic bytes are
tried first and any match is returned; otherwise (and in the `catch`
branch on failure) the result is `mimeTypes[extension] ||
'application/octet-stream'` with the extension derived from the
descriptor. -/
def getMimeType (filePathOrUrl : String) (acq : Acquisition) : String :=
  match acq with
  | Acquisition.success buffer =>
    match checkMagicBytes buffer with
    | some magicByteMimeType => magicByteMimeType
    | none => jsOr (lookupMime (derivedExtension filePathOrUrl)) "application/octet-stream"
  | Acquisition.failure =>
    jsOr (lookupMime (derivedExtension filePathOrUrl)) "application/octet-stream"

/-- JavaScript `s.startsWith(p)`. -/
def jsStartsWith (s p : String) : Bool := p.data.isPrefixOf s.data

/-- The MIME-string test of `isDocument`:
`mimeType.startsWith('application/') || mimeType === 'text/plain'`. -/
def isDocumentMime (mimeType : String) : Bool :=
  jsStartsWith mimeType "application/" || mimeType == "text/plain"

/-- The MIME-string test of `isImage`. -/
def isImageMime (mimeType : String) : Bool := jsStartsWith mimeType "image/"

/-- The MIME-string test of `isAudio`. -/
def isAudioMime (mimeType : String) : Bool := jsStartsWith mimeType "audio/"

/-- The MIME-string test of `isVideo`. -/
def isVideoMime (mimeType : String) : Bool := jsStartsWith mimeType "video/"

/-- Function `isDocument` from `magicBytes.ts`: resolve, then test the prefix. -/
def isDocument (filePathOrUrl : String) (acq : Acquisition) : Bool :=
  isDocumentMime (getMimeType filePathOrUrl acq)

/-- Function `isImage` from `magicBytes.ts`. -/
def isImage (filePathOrUrl : String) (acq : Acquisition) : Bool :=
  isImageMime (getMimeType filePathOrUrl acq)

/-- Function `isAudio` from `magicBytes.ts`. -/
def isAudio (filePathOrUrl : String) (acq : Acquisition) : Bool :=
  isAudioMime (getMimeType filePathOrUrl acq)

/-- Function `isVideo` from `magicBytes.ts`. -/
def isVideo (filePathOrUrl : String) (acq : Acquisition) : Bool :=
  isVideoMime (getMimeType filePathOrUrl acq)

/-- Function `getMimeExtension` from `magicBytes.ts`: lowercase the input, find the
first table entry (in `Object.entries` order, i.e. declaration order)
whose lowercased value equals it, and return its key with a leading dot. -/
def getMimeExtension (mimeType : String) : Option String :=
  let normalizedMimeType := toLowerStr mimeType
  match mimeTypes.find? fun e => toLowerStr e.2 == normalizedMimeType with
  | some e => some ("." ++ e.1)
  | none => none

/-- The extension derivation exactly as the specification words it: the
substring after the last `.` of the whole descriptor, lowercased, without
the leading dot; empty when the descriptor has no `.`.  (Comparand for the
refinement claim about `derivedExtension`.) -/
def specAfterLastDot (s : String) : String :=
  match lastIndexOf s.data '.' with
  | some i => toLowerStr (String.mk (s.data.drop (i + 1)))
  | none => ""

/-- The pure extension-based result as the specification words it: the
Extension Table value when the derived extension is a key, otherwise
`application/octet-stream`.  (Comparand for the acquisition-failure
claim.) -/
def extensionBasedResult (filePathOrUrl : String) : String :=
  match lookupMime (derivedExtension filePathOrUrl) with
  | some m => m
  | none => "application/octet-stream"

/- Helper lemmas -/

lemma all_congr_of_mem {α : Type} {l : List α} {p q : α → Bool}
    (h : ∀ x ∈ l, p x = q x) : l.all p = l.all q := by
  induction l with
  | nil => rfl
  | cons a as ih =>
    simp only [List.all_cons, h a (by simp)]
    rw [ih fun x hx => h x (by simp [hx])]

lemma readByte_eq_getD {buffer : List Nat} {oob : Nat → Nat} {j : Nat}
    (h : j < buffer.length) : readByte buffer oob j = buffer.getD j 0 := by
  unfold readByte
  rw [dif_pos h, List.getD_eq_getElem buffer 0 h]
  simp

/-- The per-signature test never consults the out-of-range read model. -/
lemma signatureMatchesR_eq (buffer : List Nat) (oob : Nat → Nat) (s : MagicByte) :
    signatureMatchesR buffer oob s = signatureMatches buffer s := by
  unfold signatureMatches signatureMatchesR
  by_cases h : buffer.length < sigOffset s + s.bytes.length
  · simp only [if_pos h]
  · simp only [if_neg h]
    refine all_congr_of_mem fun i hi => ?_
    rw [List.mem_range] at hi
    have hin : sigOffset s + i < buffer.length := by omega
    rw [readByte_eq_getD hin, readByte_eq_getD hin]

/-- Scanning groups and returning the group MIME type at the first group
with a matching signature is the same as scanning the flattened
(mimeType, signature) list and returning the first matching pair's MIME
type. -/
lemma findSome?_flat (groups : List MagicByteDefinition) (q : MagicByte → Bool) :
    (groups.findSome? fun t => if t.signatures.any q then some t.mimeType else none)
      = ((groups.flatMap fun t => t.signatures.map fun s => (t.mimeType, s)).find?
          fun p => q p.2).map Prod.fst := by
  induction groups with
  | nil => rfl
  | cons t ts ih =>
    rw [List.flatMap_cons, List.find?_append, List.findSome?_cons]
    have hmap : (t.signatures.map fun s => (t.mimeType, s)).find? (fun p => q p.2)
        = (t.signatures.find? q).map fun s => (t.mimeType, s) := by
      rw [List.find?_map]
      rfl
    cases hany : t.signatures.any q with
    | false =>
      have hfind : t.signatures.find? q = none := by
        rw [List.find?_eq_none]
        intro x hx hqx
        have htrue : t.signatures.any q = true := List.any_eq_true.mpr ⟨x, hx, hqx⟩
        rw [hany] at htrue
        cases htrue
      simp only [hmap, hfind, Option.map_none', Option.none_or]
      exact ih
    | true =>
      obtain ⟨s, hs⟩ : ∃ s, t.signatures.find? q = some s := by
        cases hf : t.signatures.find? q with
        | none =>
          rw [List.find?_eq_none] at hf
          rw [List.any_eq_true] at hany
          obtain ⟨x, hx, hqx⟩ := hany
          exact absurd hqx (by simpa using hf x hx)
        | some s => exact ⟨s, rfl⟩
      simp [hmap, hs]

/-- The matcher returns the MIME type of the first matching
(mimeType, signature) pair of the flattened table. -/
lemma checkMagicBytes_eq_find (buffer : List Nat) :
    checkMagicBytes buffer
      = (allSignatures.find? fun p => signatureMatches buffer p.2).map Prod.fst := by
  unfold checkMagicBytes allSignatures
  exact findSome?_flat magicBytes (signatureMatches buffer)

/-- List `find?` returns element `k` when all earlier elements fail the
predicate and element `k` satisfies it. -/
lemma find?_eq_get_of_first {α : Type} (l : List α) (p : α → Bool) :
    ∀ (k : Nat) (hk : k < l.length),
      (∀ j (hj : j < k), p (l.get ⟨j, Nat.lt_trans hj hk⟩) = false) →
      p (l.get ⟨k, hk⟩) = true →
      l.find? p = some (l.get ⟨k, hk⟩) := by
  induction l with
  | nil => intro k hk; exact absurd hk (by simp)
  | cons a as ih =>
    intro k hk hbefore hp
    cases k with
    | zero =>
      have hpa : p a = true := hp
      show List.find? p (a :: as) = some a
      rw [List.find?_cons_of_pos _ hpa]
    | succ k' =>
      have ha : p a = false := hbefore 0 (Nat.succ_pos k')
      have hk' : k' < as.length := Nat.lt_of_succ_lt_succ hk
      have hrest : List.find? p as = some (as.get ⟨k', hk'⟩) :=
        ih k' hk' (fun j hj => hbefore (j + 1) (Nat.succ_lt_succ hj)) hp
      show List.find? p (a :: as) = some (as.get ⟨k', hk'⟩)
      rw [List.find?_cons_of_neg _ (by simp [ha]), hrest]

/-- Any result of `findSome?` comes from some element of the list. -/
lemma exists_of_findSome?_some {α β : Type} {l : List α} {f : α → Option β} {b : β}
    (h : l.findSome? f = some b) : ∃ a ∈ l, f a = some b := by
  induction l with
  | nil => simp [List.findSome?_nil] at h
  | cons a as ih =>
    rw [List.findSome?_cons] at h
    cases hfa : f a with
    | none =>
      rw [hfa] at h
      have h' : List.findSome? f as = some b := h
      obtain ⟨x, hx, hb⟩ := ih h'
      exact ⟨x, by simp [hx], hb⟩
    | some b' =>
      rw [hfa] at h
      have h' : some b' = some b := h
      exact ⟨a, by simp, by rw [hfa]; exact h'⟩

/-- Any MIME type returned by `checkMagicBytes` is the MIME type of some
table group. -/
lemma checkMagicBytes_mem {buffer : List Nat} {m : String}
    (h : checkMagicBytes buffer = some m) :
    m ∈ magicBytes.map MagicByteDefinition.mimeType := by
  obtain ⟨t, ht, hft⟩ := exists_of_findSome?_some h
  rw [List.mem_map]
  refine ⟨t, ht, ?_⟩
  by_cases hany : t.signatures.any (signatureMatches buffer) = true
  · rw [if_pos hany] at hft
    exact Option.some.inj hft
  · rw [if_neg hany] at hft
    exact absurd hft (by simp)

/-- Any value in the extension table is a nonempty string. -/
lemma lookupMime_ne_empty {extension v : String} (h : lookupMime extension = some v) :
    v ≠ "" := by
  unfold lookupMime at h
  cases hf : mimeTypes.find? fun e => e.1 == extension with
  | none => rw [hf] at h; exact absurd h (by simp)
  | some e =>
    rw [hf] at h
    have he : e ∈ mimeTypes := List.mem_of_find?_eq_some hf
    have hv : v = e.2 := by
      rw [Option.map_some'] at h
      exact (Option.some.inj h).symm
    subst hv
    have hall : ∀ p ∈ mimeTypes, p.2 ≠ "" := by decide
    exact hall e he

/-- The extension-fallback expression never yields the empty string. -/
lemma jsOr_fallback_ne_empty (x : Option String) :
    jsOr x "application/octet-stream" ≠ "" := by
  unfold jsOr
  cases x with
  | none => decide
  | some s =>
    by_cases h : s = ""
    · simp [h]
    · simp [h]

/-- Two lists that are both prefixes of the same list are comparable. -/
lemma isPrefixOf_comparable :
    ∀ (m a b : List Char), a.isPrefixOf m = true → b.isPrefixOf m = true →
      a.isPrefixOf b = true ∨ b.isPrefixOf a = true := by
  intro m
  induction m with
  | nil =>
    intro a b ha hb
    cases a with
    | nil => left; cases b <;> rfl
    | cons a1 as => cases ha
  | cons x xs ih =>
    intro a b ha hb
    cases a with
    | nil => left; cases b <;> rfl
    | cons a1 as =>
      cases b with
      | nil => right; rfl
      | cons b1 bs =>
        rw [show (a1 :: as).isPrefixOf (x :: xs) = ((a1 == x) && as.isPrefixOf xs) from rfl,
          Bool.and_eq_true] at ha
        rw [show (b1 :: bs).isPrefixOf (x :: xs) = ((b1 == x) && bs.isPrefixOf xs) from rfl,
          Bool.and_eq_true] at hb
        have hab : (a1 == b1) = true := by
          rw [beq_iff_eq] at ha hb ⊢
          rw [ha.1, hb.1]
        have hba : (b1 == a1) = true := by
          rw [beq_iff_eq] at hab ⊢
          rw [hab]
        rcases ih as bs ha.2 hb.2 with h | h
        · left
          rw [show (a1 :: as).isPrefixOf (b1 :: bs) = ((a1 == b1) && as.isPrefixOf bs) from rfl,
            hab, h]
          rfl
        · right
          rw [show (b1 :: bs).isPrefixOf (a1 :: as) = ((b1 == a1) && bs.isPrefixOf as) from rfl,
            hba, h]
          rfl

/-- Two incomparable patterns cannot both be prefixes of one string. -/
lemma not_both_prefixes (p q m : List Char)
    (hpq : p.isPrefixOf q = false) (hqp : q.isPrefixOf p = false) :
    (p.isPrefixOf m && q.isPrefixOf m) = false := by
  cases hp : p.isPrefixOf m with
  | false => rfl
  | true =>
    cases hq : q.isPrefixOf m with
    | false => rfl
    | true =>
      rcases isPrefixOf_comparable m p q hp hq with h | h
      · rw [h] at hpq; cases hpq
      · rw [h] at hqp; cases hqp

/-- Pairwise exclusivity of the four MIME-category tests on any string. -/
lemma mime_categories_exclusive (m : String) :
    (isDocumentMime m && isImageMime m) = false ∧
    (isDocumentMime m && isAudioMime m) = false ∧
    (isDocumentMime m && isVideoMime m) = false ∧
    (isImageMime m && isAudioMime m) = false ∧
    (isImageMime m && isVideoMime m) = false ∧
    (isAudioMime m && isVideoMime m) = false := by
  unfold isDocumentMime isImageMime isAudioMime isVideoMime jsStartsWith
  by_cases htxt : m = "text/plain"
  · subst htxt
    decide
  · have hbeq : (m == "text/plain") = false := by
      cases hb : m == "text/plain" with
      | false => rfl
      | true => exact absurd (eq_of_beq hb) htxt
    rw [hbeq]
    simp only [Bool.or_false]
    refine ⟨?_, ?_, ?_, ?_, ?_, ?_⟩ <;>
      exact not_both_prefixes _ _ m.data (by decide) (by decide)

/- Claim theorems -/

/-- C2: for every signature and every buffer shorter than
`offset + bytes.length`, the signature does not match (no false positive),
and the matcher's result never depends on what an out-of-range byte access
would return (no out-of-bounds read). -/
theorem checkMagicBytes_safe :
    (∀ (s : MagicByte) (buffer : List Nat),
      buffer.length < sigOffset s + s.bytes.length →
      signatureMatches buffer s = false) ∧
    (∀ (buffer : List Nat) (oob : Nat → Nat),
      checkMagicBytesR buffer oob = checkMagicBytes buffer) := by
  constructor
  · intro s buffer h
    unfold signatureMatches signatureMatchesR
    rw [if_pos h]
  · intro buffer oob
    unfold checkMagicBytesR checkMagicBytes
    rw [funext fun s => signatureMatchesR_eq buffer oob s]

/-- C2 witness: the PDF signature does not match a 3-byte buffer, and the
matcher on that buffer ignores the out-of-range read model. -/
theorem checkMagicBytes_safe_witness :
    signatureMatches [0x25, 0x50, 0x44] { bytes := [0x25, 0x50, 0x44, 0x46] } = false ∧
    checkMagicBytesR [0x25, 0x50, 0x44] (fun _ => 0x46) = checkMagicBytes [0x25, 0x50, 0x44] :=
  ⟨checkMagicBytes_safe.1 { bytes := [0x25, 0x50, 0x44, 0x46] } [0x25, 0x50, 0x44] (by decide),
   checkMagicBytes_safe.2 [0x25, 0x50, 0x44] (fun _ => 0x46)⟩

/-- C5: whenever the signature matcher returns a MIME type on an acquired
buffer, `getMimeType` returns exactly that MIME type, for every descriptor
(the extension table is never consulted). -/
theorem getMimeType_magic_wins (filePathOrUrl : String) (buffer : List Nat) (m : String)
    (h : checkMagicBytes buffer = some m) :
    getMimeType filePathOrUrl (Acquisition.success buffer) = m := by
  simp only [getMimeType, h]

/-- C5 witness: a JPEG-signature buffer with path `"a.txt"` resolves to
`image/jpeg`, the signature overriding the extension. -/
theorem getMimeType_magic_wins_witness :
    getMimeType "a.txt" (Acquisition.success [0xff, 0xd8, 0xff, 0xe0]) = "image/jpeg" :=
  getMimeType_magic_wins "a.txt" [0xff, 0xd8, 0xff, 0xe0] "image/jpeg" (by decide)

/-- C4: when byte acquisition fails, `getMimeType` returns exactly the pure
extension-based result for the descriptor — the Extension Table value when
the derived extension is a key, `application/octet-stream` otherwise — and
no error is propagated (the function is total). -/
theorem getMimeType_failure_fallback (filePathOrUrl : String) :
    getMimeType filePathOrUrl Acquisition.failure = extensionBasedResult filePathOrUrl := by
  simp only [getMimeType, extensionBasedResult]
  cases hl : lookupMime (derivedExtension filePathOrUrl) with
  | none => rfl
  | some v =>
    simp only [jsOr]
    rw [if_neg (lookupMime_ne_empty hl)]

/-- C3: `getMimeType` always returns a nonempty MIME string, whatever the
descriptor and whatever the acquisition outcome (failures are swallowed),
and when no signature matches and the derived extension is not a key of
the extension table the result is exactly `application/octet-stream`. -/
theorem getMimeType_total (filePathOrUrl : String) (acq : Acquisition) :
    getMimeType filePathOrUrl acq ≠ "" ∧
    ((∀ b, acq = Acquisition.success b → checkMagicBytes b = none) →
      lookupMime (derivedExtension filePathOrUrl) = none →
      getMimeType filePathOrUrl acq = "application/octet-stream") := by
  constructor
  · cases acq with
    | failure => exact jsOr_fallback_ne_empty _
    | success buffer =>
      cases hm : checkMagicBytes buffer with
      | none =>
        simp only [getMimeType, hm]
        exact jsOr_fallback_ne_empty _
      | some m =>
        simp only [getMimeType, hm]
        have hmem := checkMagicBytes_mem hm
        have hall : ∀ m' ∈ magicBytes.map MagicByteDefinition.mimeType, m' ≠ "" := by decide
        exact hall m hmem
  · intro hnone hlookup
    cases acq with
    | failure =>
      simp only [getMimeType, hlookup]
      rfl
    | success buffer =>
      simp only [getMimeType, hnone buffer rfl, hlookup]
      rfl

/-- C3 witness: an unreadable `missing.xyz` resolves to the default MIME
type, and the result is nonempty. -/
theorem getMimeType_total_witness :
    getMimeType "missing.xyz" Acquisition.failure = "application/octet-stream" ∧
    getMimeType "missing.xyz" Acquisition.failure ≠ "" :=
  ⟨(getMimeType_total "missing.xyz" Acquisition.failure).2
      (fun b h => by cases h) (by decide),
   (getMimeType_total "missing.xyz" Acquisition.failure).1⟩

/-- C10: the four category predicates are pairwise mutually exclusive for
any fixed resolution result: no descriptor/acquisition pair makes two of
them true at once. -/
theorem category_predicates_exclusive (filePathOrUrl : String) (acq : Acquisition) :
    (isDocument filePathOrUrl acq && isImage filePathOrUrl acq) = false ∧
    (isDocument filePathOrUrl acq && isAudio filePathOrUrl acq) = false ∧
    (isDocument filePathOrUrl acq && isVideo filePathOrUrl acq) = false ∧
    (isImage filePathOrUrl acq && isAudio filePathOrUrl acq) = false ∧
    (isImage filePathOrUrl acq && isVideo filePathOrUrl acq) = false ∧
    (isAudio filePathOrUrl acq && isVideo filePathOrUrl acq) = false :=
  mime_categories_exclusive (getMimeType filePathOrUrl acq)

/-- The masked byte-by-byte comparison characterizes a signature match on a
sufficiently long buffer. -/
lemma signatureMatches_iff (s : MagicByte) (buffer : List Nat)
    (hlen : sigOffset s + s.bytes.length ≤ buffer.length) :
    signatureMatches buffer s = true ↔
      ∀ i, i < s.bytes.length →
        buffer.getD (sigOffset s + i) 0 &&& sigMask s i
          = s.bytes.getD i 0 &&& sigMask s i := by
  unfold signatureMatches signatureMatchesR
  rw [if_neg (Nat.not_lt.mpr hlen), List.all_eq_true]
  constructor
  · intro h i hi
    have h3 : (readByte buffer (fun _ => 0) (sigOffset s + i) &&& sigMask s i
        == s.bytes.getD i 0 &&& sigMask s i) = true := h i (List.mem_range.mpr hi)
    rw [readByte_eq_getD (by omega)] at h3
    exact beq_iff_eq.mp h3
  · intro h i hi
    rw [List.mem_range] at hi
    show (readByte buffer (fun _ => 0) (sigOffset s + i) &&& sigMask s i
        == s.bytes.getD i 0 &&& sigMask s i) = true
    rw [readByte_eq_getD (by omega), h i hi]
    exact beq_self_eq_true _

/-- C6: on a sufficiently long buffer, a signature matches exactly when
`(buffer[offset+i] & mask[i]) == (bytes[i] & mask[i])` holds at every
position (mask defaulting to `0xFF` when absent), and `checkMagicBytes`
returns the MIME type of the first fully-matching signature in
group-then-signature declaration order. -/
theorem signature_match_semantics :
    (∀ (s : MagicByte) (buffer : List Nat),
      sigOffset s + s.bytes.length ≤ buffer.length →
      (signatureMatches buffer s = true ↔
        ∀ i, i < s.bytes.length →
          buffer.getD (sigOffset s + i) 0 &&& sigMask s i
            = s.bytes.getD i 0 &&& sigMask s i)) ∧
    (∀ buffer : List Nat,
      checkMagicBytes buffer
        = (allSignatures.find? fun p => signatureMatches buffer p.2).map Prod.fst) :=
  ⟨signatureMatches_iff, checkMagicBytes_eq_find⟩

/-- C6 witness: the WebM signature matches its own byte sequence, and the
matcher on that buffer agrees with the first-match scan. -/
theorem signature_match_semantics_witness :
    signatureMatches [0x1a, 0x45, 0xdf, 0xa3] { bytes := [0x1a, 0x45, 0xdf, 0xa3] } = true :=
  (signature_match_semantics.1 { bytes := [0x1a, 0x45, 0xdf, 0xa3] } [0x1a, 0x45, 0xdf, 0xa3]
    (by decide)).mpr (by decide)

/-- C1 (amended): a buffer whose bytes at the listed offset exactly equal a
maskless built-in signature's bytes makes that signature match, and
`checkMagicBytes` returns that entry's MIME type whenever no
earlier-listed signature also matches the buffer (the first match in
declaration order wins). -/
theorem checkMagicBytes_exact_sig (k : Nat) (hk : k < allSignatures.length)
    (buffer : List Nat)
    (hmask : (allSignatures.get ⟨k, hk⟩).2.mask = none)
    (hlen : sigOffset (allSignatures.get ⟨k, hk⟩).2
        + (allSignatures.get ⟨k, hk⟩).2.bytes.length ≤ buffer.length)
    (hexact : ∀ i, i < (allSignatures.get ⟨k, hk⟩).2.bytes.length →
      buffer.getD (sigOffset (allSignatures.get ⟨k, hk⟩).2 + i) 0
        = (allSignatures.get ⟨k, hk⟩).2.bytes.getD i 0)
    (hfirst : ∀ j (hj : j < k),
      signatureMatches buffer (allSignatures.get ⟨j, Nat.lt_trans hj hk⟩).2 = false) :
    checkMagicBytes buffer = some (allSignatures.get ⟨k, hk⟩).1 := by
  have hmatch : signatureMatches buffer (allSignatures.get ⟨k, hk⟩).2 = true :=
    (signatureMatches_iff _ _ hlen).mpr fun i hi => by rw [hexact i hi]
  have hfind := find?_eq_get_of_first allSignatures
    (fun p => signatureMatches buffer p.2) k hk hfirst hmatch
  rw [checkMagicBytes_eq_find, hfind, Option.map_some']

/-- C1 witness: an exact `%PDF` buffer resolves to `application/pdf`. -/
theorem checkMagicBytes_exact_sig_witness :
    checkMagicBytes [0x25, 0x50, 0x44, 0x46] = some "application/pdf" :=
  checkMagicBytes_exact_sig 0 (by decide) [0x25, 0x50, 0x44, 0x46]
    (by decide) (by decide) (by decide) (fun j hj => absurd hj (Nat.not_lt_zero j))

/-- C1 counterexample: the buffer `%PDF` followed by `ftyp` satisfies the
claim's premises for the `video/mp4` `ftyp` signature (its bytes appear
exactly at its offset 4, buffer long enough, no mask), yet
`checkMagicBytes` returns `application/pdf`, not that entry's MIME type:
the quantification over all built-in signatures fails. -/
theorem checkMagicBytes_exact_sig_counterexample :
    ("video/mp4", ({ bytes := [0x66, 0x74, 0x79, 0x70], offset := some 4 } : MagicByte))
        ∈ allSignatures ∧
    List.take 4 (List.drop 4 [0x25, 0x50, 0x44, 0x46, 0x66, 0x74, 0x79, 0x70])
        = [0x66, 0x74, 0x79, 0x70] ∧
    signatureMatches [0x25, 0x50, 0x44, 0x46, 0x66, 0x74, 0x79, 0x70]
        { bytes := [0x66, 0x74, 0x79, 0x70], offset := some 4 } = true ∧
    checkMagicBytes [0x25, 0x50, 0x44, 0x46, 0x66, 0x74, 0x79, 0x70]
        = some "application/pdf" ∧
    checkMagicBytes [0x25, 0x50, 0x44, 0x46, 0x66, 0x74, 0x79, 0x70]
        ≠ some "video/mp4" := by
  decide

/-- C7 (amended): the extension used for fallback lookup is derived from
the descriptor's basename — its last `/`-separated portion, trailing
separators ignored — not from the whole descriptor: it is empty when the
basename has no `.`, when the only `.` is the basename's first character,
or when the basename is `".."`; otherwise it is the substring after the
basename's last `.`, lowercased, without the leading dot.  Query strings
and fragments are not stripped, so `"https://x.com/file.jpg?x=1"` derives
`"jpg?x=1"`. -/
theorem derivedExtension_spec (s : String) :
    (jsBasename s = ['.', '.'] → derivedExtension s = "") ∧
    (lastIndexOf (jsBasename s) '.' = none → derivedExtension s = "") ∧
    (lastIndexOf (jsBasename s) '.' = some 0 → derivedExtension s = "") ∧
    (∀ j, 0 < j → jsBasename s ≠ ['.', '.'] → lastIndexOf (jsBasename s) '.' = some j →
      derivedExtension s = specAfterLastDot (String.mk (jsBasename s))) ∧
    derivedExtension "https://x.com/file.jpg?x=1" = "jpg?x=1" := by
  refine ⟨?_, ?_, ?_, ?_, by decide⟩
  · intro h
    unfold derivedExtension extname
    rw [if_pos h]
    rfl
  · intro h
    unfold derivedExtension extname
    by_cases hb : jsBasename s = ['.', '.']
    · rw [if_pos hb]; rfl
    · rw [if_neg hb, h]; rfl
  · intro h
    unfold derivedExtension extname
    by_cases hb : jsBasename s = ['.', '.']
    · rw [if_pos hb]; rfl
    · rw [if_neg hb, h]; rfl
  · intro j hj hne hlast
    obtain ⟨j', rfl⟩ : ∃ j', j = j' + 1 := ⟨j - 1, by omega⟩
    have hspec : specAfterLastDot (String.mk (jsBasename s))
        = toLowerStr (String.mk ((jsBasename s).drop (j' + 1 + 1))) := by
      unfold specAfterLastDot
      rw [show (String.mk (jsBasename s)).data = jsBasename s from rfl, hlast]
    rw [hspec]
    unfold derivedExtension extname
    rw [if_neg hne, hlast]
    show jsSlice1 (toLowerStr (String.mk ((jsBasename s).drop (j' + 1))))
        = toLowerStr (String.mk ((jsBasename s).drop (j' + 1 + 1)))
    unfold jsSlice1 toLowerStr
    congr 1
    rw [show (String.mk (((jsBasename s).drop (j' + 1)).map toLowerChar)).data
        = ((jsBasename s).drop (j' + 1)).map toLowerChar from rfl]
    rw [show (String.mk ((jsBasename s).drop (j' + 1 + 1))).data
        = (jsBasename s).drop (j' + 1 + 1) from rfl]
    rw [List.map_drop, List.drop_drop]
    exact (List.map_drop toLowerChar (jsBasename s) (j' + 1 + 1)).symm

/-- C7 witness: a descriptor whose basename has an interior dot derives the
lowercased substring after it: `"x.PNG"` derives `"png"`. -/
theorem derivedExtension_spec_witness : derivedExtension "x.PNG" = "png" := by
  have h := (derivedExtension_spec "x.PNG").2.2.2.1 1 (by decide) (by decide) (by decide)
  rw [h]
  decide

/-- C7 counterexample: for descriptor `".jpg"` the claim's derivation (the
substring after the last `.` of the whole descriptor) yields `"jpg"`, a
key of the extension table, but the code derives the empty extension and
falls through to the default MIME type. -/
theorem derivedExtension_counterexample :
    specAfterLastDot ".jpg" = "jpg" ∧
    derivedExtension ".jpg" = "" ∧
    derivedExtension ".jpg" ≠ specAfterLastDot ".jpg" ∧
    lookupMime "jpg" = some "image/jpeg" ∧
    getMimeType ".jpg" Acquisition.failure = "application/octet-stream" := by
  decide

/-- C8 (amended): for a local file of any length, the acquisition step
produces a buffer of length exactly 12 holding the file's first bytes
followed by zero padding — a short read does not throw and does not
truncate the allocated buffer. -/
theorem localReadBuffer_spec (file : List Nat) :
    localReadBuffer file = file.take 12 ++ List.replicate (12 - file.length) 0 ∧
    (localReadBuffer file).length = 12 := by
  have h1 : localReadBuffer file = file.take 12 ++ List.replicate (12 - file.length) 0 := by
    unfold localReadBuffer readSyncInto bufferAlloc
    rw [List.drop_replicate]
    congr 1
    rw [List.length_take]
    congr 1
    omega
  refine ⟨h1, ?_⟩
  rw [h1, List.length_append, List.length_take, List.length_replicate]
  omega

/-- C8 counterexample: a 3-byte file yields a 12-byte zero-padded buffer,
not a truncated buffer whose length equals the file's length. -/
theorem localReadBuffer_counterexample :
    (localReadBuffer [0x49, 0x44, 0x33]).length = 12 ∧
    localReadBuffer [0x49, 0x44, 0x33] ≠ [0x49, 0x44, 0x33] ∧
    ¬ (localReadBuffer [0x49, 0x44, 0x33]).length = 3 := by
  decide

/-- C9: every extension table entry round-trips — `getMimeExtension` of its
MIME value returns a dotted extension whose entry maps back to the same
MIME value, the first matching entry in declaration order winning
(`image/jpeg` gives `.jpg`, not `.jpeg`) — and a MIME type matching no
entry (up to case normalization) returns none. -/
theorem getMimeExtension_round_trip :
    (∀ p ∈ mimeTypes, ∃ q, q ∈ mimeTypes ∧ q.2 = p.2 ∧
      getMimeExtension p.2 = some ("." ++ q.1)) ∧
    getMimeExtension "image/jpeg" = some ".jpg" ∧
    getMimeExtension "image/jpeg" ≠ some ".jpeg" ∧
    (∀ m : String, (∀ p ∈ mimeTypes, toLowerStr p.2 ≠ toLowerStr m) →
      getMimeExtension m = none) := by
  refine ⟨by decide, by decide, by decide, ?_⟩
  intro m hm
  have hfind : mimeTypes.find? (fun e => toLowerStr e.2 == toLowerStr m) = none := by
    rw [List.find?_eq_none]
    intro p hp hbeq
    exact hm p hp (eq_of_beq hbeq)
  show (match mimeTypes.find? fun e => toLowerStr e.2 == toLowerStr m with
    | some e => some ("." ++ e.1)
    | none => none) = none
  rw [hfind]

/-- C9 witness: `application/unknown` appears in no entry, so
`getMimeExtension` returns none on it. -/
theorem getMimeExtension_round_trip_witness :
    getMimeExtension "application/unknown" = none :=
  getMimeExtension_round_trip.2.2.2 "application/unknown" (by decide)
